import Mathlib
/-!
Shallow embedding of the elastic workplace-search SharePoint Server 2016
connector (files `fetch_index.py` and `usergroup_permissions.py`).
Python dictionaries are modelled as association lists with the update
semantics of `d[k] = v` (replace the existing entry for the key in place,
otherwise append).  Python booleans and strings that meet in one container
are modelled by `PyVal`, with Python's `==` semantics (a `bool` and a `str`
are never equal).  `datetime` values are modelled as integer microsecond
counts; `timedelta / int` rounds to the nearest microsecond, ties to even,
exactly as CPython does.
-/

/-- Lookup in a Python-style dict: value of the first entry with the key. -/
def dictGet? {V : Type} (d : List (String × V)) (k : String) : Option V :=
  (d.find? (fun p => p.1 == k)).map (fun p => p.2)

/-- Python `d[k] = v`: replace the entry for `k` in place, else append. -/
def dictSet {V : Type} : List (String × V) → String → V → List (String × V)
  | [], k, v => [(k, v)]
  | p :: tl, k, v => if p.1 == k then (k, v) :: tl else p :: dictSet tl k v

/-- Python `d.update(delta)`: assign every entry of `delta` in order. -/
def dictUpdate {V : Type} (d delta : List (String × V)) : List (String × V) :=
  delta.foldl (fun acc kv => dictSet acc kv.1 kv.2) d

/-- Keys of a dict. -/
def dictKeys {V : Type} (d : List (String × V)) : List String := d.map (fun p => p.1)

/-! Python values appearing in the shared `is_error_shared` manager list:
the connector appends the boolean `self.is_error` of each partition, while
the checkpoint commit tests membership of the *string* `"True"`. -/

/-- A Python value that is either a bool or a str. -/
inductive PyVal where
  | pybool (b : Bool)
  | pystr (s : String)
deriving DecidableEq, Repr

/-- Python `==` between such values: a bool never equals a str. -/
def pyEq : PyVal → PyVal → Bool
  | PyVal.pybool a, PyVal.pybool b => a == b
  | PyVal.pystr a, PyVal.pystr b => a == b
  | _, _ => false

/-- Python `x in l` over a list. -/
def pyMem (x : PyVal) (l : List PyVal) : Bool :=
  l.any (fun y => pyEq y x)

/-- The boundary passed to `check.set_checkpoint` at the end of a collection
cycle in `start` (fetch_index.py lines 684-687): the window start when the
string `"True"` is a member of `is_error_shared`, the window end otherwise. -/
def set_checkpoint_boundary (is_error_shared : List PyVal) (start_time end_time : ℤ) : ℤ :=
  if pyMem (PyVal.pystr "True") is_error_shared then start_time else end_time

/-- The shared list built by the partition workers: `indexing` appends the
boolean `self.is_error` of each partition (fetch_index.py line 565). -/
def shared_error_list (flags : List Bool) : List PyVal :=
  flags.map PyVal.pybool

/-! Time-window partitioning (`datetime_partitioning`, fetch_index.py lines
574-586).  Datetimes are microsecond counts; the inputs are parsed with the
format `%Y-%m-%dT%H:%M:%SZ`, hence are whole-second values (multiples of
1000000 microseconds).  `timedelta / int` in CPython rounds the exact
quotient to the nearest whole microsecond, ties to even. -/

/-- CPython division of a timedelta (`a` microseconds) by an int `n`:
round half to even.  For a nonnegative dividend and a positive divisor this
is floor division corrected upward when the remainder is more than half the
divisor, with the tie going to the even quotient. -/
def tdRoundDiv (a : ℤ) (n : ℕ) : ℤ :=
  let q := a / (n : ℤ)
  let r := a % (n : ℤ)
  if (n : ℤ) < 2 * r then q + 1
  else if 2 * r < (n : ℤ) then q
  else if q % 2 = 0 then q else q + 1

/-- The boundary list produced by `datetime_partitioning`: `diff` is
`(end - start) / processes` (timedelta division), then it yields
`start + diff * idx` for `idx` in `range processes`, and finally `end`. -/
def datetime_partitioning (s e : ℤ) (W : ℕ) : List ℤ :=
  let diff := tdRoundDiv (e - s) W
  ((List.range W).map (fun (idx : ℕ) => s + diff * (idx : ℤ))) ++ [e]

/-- Closed form of the idx-th boundary. -/
def partition_boundary (s e : ℤ) (W : ℕ) (idx : ℕ) : ℤ :=
  if idx < W then s + tdRoundDiv (e - s) W * (idx : ℤ) else e

/-- The worker sub-windows of `start`: pairs of consecutive boundaries
(`datelist[num], datelist[num + 1]` for `num` in `range worker_process`). -/
def partition_windows (s e : ℤ) (W : ℕ) : List (ℤ × ℤ) :=
  (datetime_partitioning s e W).zip (datetime_partitioning s e W).tail

/-! The events of one cycle of `start` (fetch_index.py lines 607-687):
the optional permission purge, then per collection the launch of the
partition worker processes and the checkpoint commit. -/

/-- An observable side-effecting step of one cycle of `start`. -/
inductive CycleEvent where
  | remove
  | launch (collection : String) (worker : ℕ)
  | commit (collection : String)
deriving DecidableEq, Repr

/-- The ordered side effects of one pass of the `while True` loop in
`start`: `remove_all_permissions` is called only inside the
`os.path.exists(IDS_PATH) and os.path.getsize(IDS_PATH) > 0` guard and
only when `indexing_type == "full_sync"`; afterwards, for each configured
collection, the `worker_process` partition jobs are started and joined and
the checkpoint is committed. -/
def cycle_trace (indexing_type : String) (ids_file_nonempty : Bool)
    (collections : List String) (worker_process : ℕ) : List CycleEvent :=
  (if ids_file_nonempty && (indexing_type == "full_sync") then [CycleEvent.remove] else [])
    ++ collections.foldr
        (fun c rest => ((List.range worker_process).map (CycleEvent.launch c)
                          ++ [CycleEvent.commit c]) ++ rest) []

/-! The stage loop of `FetchIndex.indexing` (fetch_index.py lines 528-554)
reduced to its effect on `self.is_error`.  Each configured object key runs
its stage; a stage failure sets the flag; the `elif self.is_error:` arms
reset the flag to `False` before continuing with the next key. -/

/-- Effect of the `items` block of the loop body on `is_error`:
`if key == ITEMS and not self.is_error: ...` (failure of `index_items`
modelled by `items_fails`) `elif self.is_error: self.is_error = False`. -/
def indexing_items_block (items_fails : Bool) (key : String) (e : Bool) : Bool :=
  if key == "items" && !e then e || items_fails
  else if e then false
  else e

/-- Effect of the `lists` block followed by the `items` block: the
`elif self.is_error: self.is_error = False; continue` arm skips the
`items` block for the current key. -/
def indexing_lists_block (lists_fails items_fails : Bool) (key : String) (e : Bool) : Bool :=
  if key == "lists" && !e then indexing_items_block items_fails key (e || lists_fails)
  else if e then false
  else indexing_items_block items_fails key e

/-- Effect of one whole iteration of `for key in self.objects` on
`is_error` (the `sites` block has no `elif` arm). -/
def indexing_key_step (sites_fails lists_fails items_fails : Bool)
    (key : String) (e : Bool) : Bool :=
  indexing_lists_block lists_fails items_fails key
    (if key == "sites" then e || sites_fails else e)

/-- The `is_error` value a partition worker appends to `is_error_shared`
at the end of `indexing`, as a function of which stages fail.  The flag
starts `False` (set in `__init__`). -/
def indexing_reported_flag (objects : List String)
    (sites_fails lists_fails items_fails : Bool) : Bool :=
  objects.foldl (fun e key => indexing_key_step sites_fails lists_fails items_fails key e) false

/-! Schema projection (`FetchIndex.get_schema_fields`, fetch_index.py
lines 109-125).  The adapter schema (module `adapter`, not part of this
repository's sources; the spec calls it the object-type's field map) is an
arbitrary dict from canonical field name to source attribute name. -/

/-- The `include_fields` / `exclude_fields` entry of one object type's
configuration.  `none` models an absent key, `some []` an empty list;
Python truthiness treats both as false. -/
structure FieldsConfig where
  include_fields : Option (List String)
  exclude_fields : Option (List String)

/-- Python truthiness of an optional list. -/
def optListTruthy (o : Option (List String)) : Bool :=
  match o with
  | none => false
  | some l => !l.isEmpty

/-- `get_schema_fields`: when the object type has a truthy `fields`
configuration, filter the adapter schema by the include list (or, only if
no include list is given, by the exclude list) and then overwrite the
`id` entry with `"GUID"` for items and `"Id"` otherwise. -/
def get_schema_fields (adapter_schema : List (String × String))
    (fields : Option FieldsConfig) (document_name : String) : List (String × String) :=
  match fields with
  | none => adapter_schema
  | some f =>
    let filtered :=
      if optListTruthy f.include_fields then
        adapter_schema.filter (fun p => (f.include_fields.getD []).contains p.2)
      else if optListTruthy f.exclude_fields then
        adapter_schema.filter (fun p => !(f.exclude_fields.getD []).contains p.2)
      else adapter_schema
    dictSet filtered "id" (if document_name == "items" then "GUID" else "Id")

/-! Permission expansion (`FetchIndex.index_permissions` together with
`FetchIndex.workplace_add_permission`, fetch_index.py lines 436-510). -/

/-- One role assignment as seen by `index_permissions`: the principal's
`Member.Title` and, when `Member.get("Users")` is truthy, the `Title`s of
`Users["results"]` (`none` models an absent or falsy `Users`). -/
structure RoleAssignment where
  title : String
  users : Option (List String)

/-- The `(user, permission)` pairs pushed to the sink for one role
assignment: one push per member user, labelled with the role title, each
user name first remapped through the mapping-sheet dict; with no
enumerable member users, a single push of the (remapped) principal title
as both user and permission. -/
def expand_role (rows : List (String × String)) (r : RoleAssignment) : List (String × String) :=
  match r.users with
  | some us => us.map (fun u => ((dictGet? rows u).getD u, r.title))
  | none =>
    let user_name := (dictGet? rows r.title).getD r.title
    [(user_name, user_name)]

/-- All pushes of one `index_permissions` call over its role list. -/
def index_permissions_pushes (rows : List (String × String))
    (roles : List RoleAssignment) : List (String × String) :=
  roles.foldr (fun r acc => expand_role rows r ++ acc) []

/-! Merge of per-partition identity deltas into the shared `storage`
manager dict (`FetchIndex.indexing`, fetch_index.py lines 567-571). -/

/-- Merge one level: `if ids.get(obj): prev = storage[obj];
prev.update(ids[obj]); storage[obj] = prev` — a falsy (empty) delta
leaves the level untouched. -/
def merge_level {V : Type} (storage delta : List (String × V)) : List (String × V) :=
  if delta.isEmpty then storage else dictUpdate storage delta

/-- The three per-level dicts of the identity registry: `sites` maps
site id to path, `lists` maps site path to its per-site dict, `list_items`
maps site path to its per-list dict. -/
structure IdentityRegistry (V : Type) where
  sites : List (String × V)
  lists : List (String × V)
  list_items : List (String × V)

/-- The whole merge loop `for obj in ['sites', 'lists', 'list_items']`. -/
def merge_registry {V : Type} (storage delta : IdentityRegistry V) : IdentityRegistry V :=
  { sites := merge_level storage.sites delta.sites
    lists := merge_level storage.lists delta.lists
    list_items := merge_level storage.list_items delta.list_items }

/-! Item documents (`FetchIndex.index_items`, fetch_index.py lines
306-406). -/

/-- A value stored in a document dict: a string, Python `None` (a missing
source attribute), the empty dict `{}` (the body default on extraction
failure), or a permission list. -/
inductive DocVal where
  | vstr (s : String)
  | vnone
  | vempty
  | vlist (l : List String)
deriving DecidableEq, Repr

/-- One raw item from the items response: truthiness of its
`Attachments` flag, its raw attribute dict, and its `Id` rendered as a
string. -/
structure ItemRaw where
  attachments : Bool
  attrs : List (String × String)
  id : String

/-- The document built for one item in the `index_items` loop: start with
`{'type': 'item'}`; when the `Attachments` flag is truthy and the
attachment fetch returned status 200, set `body` to the extracted text or
to `{}` when extraction raised; then project every schema field from the
raw attributes (missing attributes become `None`); optionally set
`_allow_permissions`; finally set `url`. -/
def build_item_doc (schema : List (String × String)) (base_item_url : String)
    (perms : Option (List String)) (it : ItemRaw) (fetch_ok : Bool)
    (extracted : Option String) : List (String × DocVal) :=
  let doc : List (String × DocVal) := [("type", DocVal.vstr "item")]
  let doc :=
    if it.attachments then
      if fetch_ok then
        dictSet doc "body" (match extracted with
          | some s => DocVal.vstr s
          | none => DocVal.vempty)
      else doc
    else doc
  let doc := schema.foldl
    (fun d fr => dictSet d fr.1 (match dictGet? it.attrs fr.2 with
      | some v => DocVal.vstr v
      | none => DocVal.vnone)) doc
  let doc :=
    match perms with
    | some g => dictSet doc "_allow_permissions" (DocVal.vlist g)
    | none => doc
  dictSet doc "url" (DocVal.vstr (base_item_url ++ it.id))

/-- The staged `document` list of one list's `index_items` pass: one
document appended per response item, whatever its attachment or
extraction outcome.  Each item carries its own fetch status and
extraction result. -/
def index_items_documents (schema : List (String × String)) (base_item_url : String)
    (perms : Option (List String)) (items : List (ItemRaw × Bool × Option String)) :
    List (List (String × DocVal)) :=
  items.map (fun t => build_item_doc schema base_item_url perms t.1 t.2.1 t.2.2)

/-- The batching of `index_document` (fetch_index.py line 90): slices
`document[i * 100 : (i + 1) * 100]` for `i` in
`range((len(document) + 99) // 100)`. -/
def index_document_chunks {A : Type} (document : List A) : List (List A) :=
  (List.range ((document.length + 100 - 1) / 100)).map
    (fun i => ((document.drop (i * 100)).take 100))

/-! The per-site loop of `index_lists` (fetch_index.py lines 203-275):
`document = []` is initialised once before the loop, sites whose list
response is empty are skipped, and for every other site the documents are
appended to the shared accumulator and the whole accumulator is submitted
to `index_document`. -/

/-- Fold of the `index_lists` site loop, abstracted over the projected
documents each site's response yields (`[]` for a site whose response was
empty/falsy).  Returns the final accumulator and the list of arguments of
the successive `index_document` calls. -/
def index_lists_submissions {A : Type} (site_docs : List (List A)) :
    List A × List (List A) :=
  site_docs.foldl
    (fun acc docs =>
      if docs.isEmpty then acc
      else (acc.1 ++ docs, acc.2 ++ [acc.1 ++ docs]))
    ([], [])

theorem dictGet?_set_self {V : Type} (d : List (String × V)) (k : String) (v : V) :
    dictGet? (dictSet d k v) k = some v := by
  induction d with
  | nil => simp [dictSet, dictGet?, List.find?]
  | cons p tl ih =>
    by_cases h : p.1 == k
    · simp [dictSet, h, dictGet?, List.find?]
    · simp only [dictSet, h, if_false, Bool.false_eq_true]
      simp only [dictGet?, List.find?, h] at ih ⊢
      exact ih

theorem dictGet?_set_ne {V : Type} (d : List (String × V)) (k k' : String) (v : V)
    (h : k' ≠ k) : dictGet? (dictSet d k v) k' = dictGet? d k' := by
  induction d with
  | nil =>
    have hk : (k == k') = false := by
      simp only [beq_eq_false_iff_ne, ne_eq]
      exact fun hc => h hc.symm
    simp [dictSet, dictGet?, List.find?, hk]
  | cons p tl ih =>
    by_cases hp : p.1 == k
    · have hpk : p.1 = k := by simpa using hp
      have : ¬ ((k : String) == k') = true := by
        simp; exact fun hc => h hc.symm
      simp [dictSet, hp, dictGet?, List.find?, this, hpk]
    · simp only [dictSet, hp, if_false, Bool.false_eq_true]
      by_cases hk' : p.1 == k'
      · simp [dictGet?, List.find?, hk']
      · simp only [dictGet?, List.find?, hk'] at ih ⊢
        simpa using ih

theorem mem_of_mem_dictSet_ne {V : Type} {d : List (String × V)} {k : String} {v : V}
    {p : String × V} (hm : p ∈ dictSet d k v) (hne : p.1 ≠ k) : p ∈ d := by
  induction d with
  | nil =>
    simp [dictSet] at hm
    exact absurd (by simp [hm]) hne
  | cons q tl ih =>
    by_cases hq : q.1 == k
    · simp only [dictSet, hq, if_true] at hm
      rcases List.mem_cons.mp hm with h1 | h2
      · exact absurd (by simp [h1]) hne
      · exact List.mem_cons_of_mem _ h2
    · simp only [dictSet, hq, if_false, Bool.false_eq_true] at hm
      rcases List.mem_cons.mp hm with h1 | h2
      · exact h1 ▸ List.mem_cons_self _ _
      · exact List.mem_cons_of_mem _ (ih h2)

theorem dictKeys_set_subset {V : Type} (d : List (String × V)) (k : String) (v : V) :
    ∀ x ∈ dictKeys (dictSet d k v), x ∈ dictKeys d ∨ x = k := by
  induction d with
  | nil => simp [dictSet, dictKeys]
  | cons p tl ih =>
    intro x hx
    by_cases hp : p.1 == k
    · simp only [dictSet, hp, if_true, dictKeys, List.map_cons] at hx
      rcases List.mem_cons.mp hx with h1 | h2
      · right; exact h1
      · left
        simp only [dictKeys, List.map_cons]
        exact List.mem_cons_of_mem _ h2
    · simp only [dictSet, hp, if_false, Bool.false_eq_true, dictKeys, List.map_cons] at hx
      rcases List.mem_cons.mp hx with h1 | h2
      · left
        simp only [dictKeys, List.map_cons]
        exact h1 ▸ List.mem_cons_self _ _
      · rcases ih x h2 with h3 | h3
        · left
          simp only [dictKeys, List.map_cons]
          exact List.mem_cons_of_mem _ h3
        · right; exact h3

theorem length_dictSet_not_mem {V : Type} (d : List (String × V)) (k : String) (v : V)
    (h : k ∉ dictKeys d) : (dictSet d k v).length = d.length + 1 := by
  induction d with
  | nil => simp [dictSet]
  | cons p tl ih =>
    have hp : ¬ (p.1 == k) = true := by
      simp only [dictKeys, List.map_cons, List.mem_cons] at h
      simp; intro hc; exact h (Or.inl hc.symm)
    simp only [dictSet, hp, if_false, Bool.false_eq_true, List.length_cons]
    rw [ih (by simp only [dictKeys, List.map_cons, List.mem_cons] at h; tauto)]

/-- C1: the membership test `"True" in is_error_shared` compares the string
`"True"` against the boolean flags appended by the workers, and in Python a
bool never equals a str, so the test is always false and the persisted
boundary is always the window end — even when a partition reported failure.
At the failing input (one partition flagged `True`, window `[0, 100]`) the
code persists `100` (the end) where the claim requires `0` (the start). -/
theorem checkpoint_commit_ignores_failures :
    set_checkpoint_boundary (shared_error_list [true]) 0 100 = 100 ∧
    ∀ (flags : List Bool) (s e : ℤ),
      set_checkpoint_boundary (shared_error_list flags) s e = e := by
  refine ⟨rfl, ?_⟩
  intro flags s e
  have h : pyMem (PyVal.pystr "True") (shared_error_list flags) = false := by
    simp only [pyMem, shared_error_list, List.any_eq_false]
    intro b hb
    rcases List.mem_map.mp hb with ⟨a, _, rfl⟩
    simp [pyEq]
  simp [set_checkpoint_boundary, h]

theorem datetime_partitioning_eq_map (s e : ℤ) (W : ℕ) :
    datetime_partitioning s e W = (List.range (W + 1)).map (partition_boundary s e W) := by
  rw [List.range_succ, List.map_append]
  have h1 : (List.range W).map (partition_boundary s e W)
      = (List.range W).map (fun (idx : ℕ) => s + tdRoundDiv (e - s) W * (idx : ℤ)) := by
    apply List.map_congr_left
    intro x hx
    simp [partition_boundary, List.mem_range.mp hx]
  have h2 : partition_boundary s e W W = e := by simp [partition_boundary]
  simp only [List.map_cons, List.map_nil, h1, h2]
  rfl

theorem tdRoundDiv_nonneg (a : ℤ) (n : ℕ) (ha : 0 ≤ a) : 0 ≤ tdRoundDiv a n := by
  have hq : 0 ≤ a / (n : ℤ) := Int.ediv_nonneg ha (by positivity)
  simp only [tdRoundDiv]
  split
  · omega
  · split
    · omega
    · split <;> omega

theorem tdRoundDiv_two_mul_le (a : ℤ) (n : ℕ) (hn : 0 < n) :
    2 * tdRoundDiv a n * (n : ℤ) ≤ 2 * a + (n : ℤ) := by
  have hnz : (n : ℤ) ≠ 0 := by positivity
  have hmod := Int.emod_nonneg a hnz
  have hmod2 : a % (n : ℤ) < (n : ℤ) := Int.emod_lt_of_pos a (by exact_mod_cast hn)
  have hdm := Int.ediv_add_emod a (n : ℤ)
  simp only [tdRoundDiv]
  split
  · nlinarith [hdm]
  · split
    · nlinarith [hdm]
    · split <;> nlinarith [hdm]

theorem partition_boundary_le_succ (s e : ℤ) (W : ℕ) (hW : 0 < W) (hse : s ≤ e)
    (hbound : (W : ℤ) * ((W : ℤ) - 1) ≤ 2 * (e - s)) :
    ∀ m : ℕ, m < W → partition_boundary s e W m ≤ partition_boundary s e W (m + 1) := by
  intro m hm
  have ha : (0 : ℤ) ≤ e - s := by linarith
  have hdnn := tdRoundDiv_nonneg (e - s) W ha
  by_cases hm1 : m + 1 < W
  · simp only [partition_boundary, if_pos hm, if_pos hm1]
    have hc : ((m : ℤ)) ≤ ((m : ℤ) + 1) := by linarith
    have := mul_le_mul_of_nonneg_left hc hdnn
    push_cast
    linarith
  · have hmW : (m : ℤ) = (W : ℤ) - 1 := by
      have : m + 1 = W := by omega
      have h2 : ((m : ℤ) + 1) = (W : ℤ) := by exact_mod_cast this
      linarith
    simp only [partition_boundary, if_pos hm, if_neg (show ¬ m + 1 < W by omega)]
    have hkey := tdRoundDiv_two_mul_le (e - s) W hW
    have hWpos : (0 : ℤ) < (W : ℤ) := by exact_mod_cast hW
    have hW1 : (0 : ℤ) ≤ (W : ℤ) - 1 := by linarith
    have hprod := mul_le_mul_of_nonneg_right hkey hW1
    rw [hmW]
    nlinarith [hprod, hbound, hdnn, hWpos]

/-- C3 (amended): the partitioner emits exactly `W + 1` boundaries, the
first equal to `start` and the last equal to `end` exactly, and the
boundary list is monotonically non-decreasing provided
`W * (W - 1) <= 2 * (end - start)` measured in microseconds — which holds
for every realistic worker count (inputs are second-granular, so any
non-degenerate window tolerates at least `W = 1414`).  Without that
proviso monotonicity can fail: CPython rounds the sub-interval length to
the nearest microsecond, and for huge `W` the second-to-last boundary then
overshoots `end` (see the counterexample). -/
theorem partitioning_boundaries_ok (s e : ℤ) (W : ℕ) (hW : 0 < W) (hse : s ≤ e)
    (hbound : (W : ℤ) * ((W : ℤ) - 1) ≤ 2 * (e - s)) :
    (datetime_partitioning s e W).length = W + 1 ∧
    (datetime_partitioning s e W).head? = some s ∧
    (datetime_partitioning s e W).getLast? = some e ∧
    List.Chain' (· ≤ ·) (datetime_partitioning s e W) := by
  refine ⟨?_, ?_, ?_, ?_⟩
  · simp [datetime_partitioning]
  · obtain ⟨w, rfl⟩ : ∃ w, W = w + 1 := ⟨W - 1, by omega⟩
    simp only [datetime_partitioning, List.range_succ_eq_map, List.map_cons]
    rw [List.head?_append_of_ne_nil _ (by simp)]
    simp
  · simp only [datetime_partitioning]
    rw [List.getLast?_append_cons]
    rfl
  · rw [datetime_partitioning_eq_map, List.chain'_map, List.chain'_range_succ]
    exact partition_boundary_le_succ s e W hW hse hbound

set_option maxRecDepth 4000 in
/-- Witness for C3: the spec scenario, a window from 00:00 to 08:00
(28800000000 microseconds) split for `W = 4` yields exactly the boundaries
00:00, 02:00, 04:00, 06:00, 08:00. -/
theorem partitioning_boundaries_ok_witness :
    datetime_partitioning 0 28800000000 4 =
      [0, 7200000000, 14400000000, 21600000000, 28800000000] ∧
    ((datetime_partitioning 0 28800000000 4).length = 4 + 1 ∧
     (datetime_partitioning 0 28800000000 4).head? = some 0 ∧
     (datetime_partitioning 0 28800000000 4).getLast? = some 28800000000 ∧
     List.Chain' (· ≤ ·) (datetime_partitioning 0 28800000000 4)) :=
  ⟨by decide, partitioning_boundaries_ok 0 28800000000 4 (by decide) (by decide) (by decide)⟩

set_option maxRecDepth 10000 in
/-- C3 counterexample: for the one-second window `[0, 1000000]`
(microseconds; i.e. start 00:00:00, end 00:00:01) and `W = 1665` workers,
CPython computes `diff = round(1000000 / 1665) = 601` microseconds, so the
boundary at index 1664 is `601 * 1664 = 1000064 > 1000000`: the boundary
list is not monotonically non-decreasing (its last step goes down). -/
theorem partitioning_not_monotone_counterexample :
    ¬ List.Chain' (· ≤ ·) (datetime_partitioning 0 1000000 1665) := by
  intro h
  rw [datetime_partitioning_eq_map, List.chain'_map, List.chain'_range_succ] at h
  have h2 := h 1664 (by norm_num)
  have hdiv : tdRoundDiv (1000000 - 0) 1665 = 601 := by decide
  simp only [partition_boundary, hdiv] at h2
  norm_num at h2

theorem tdRoundDiv_zero_left (n : ℕ) : tdRoundDiv 0 n = 0 := by
  have h1 : (0 : ℤ) / (n : ℤ) = 0 := Int.zero_ediv _
  have h2 : (0 : ℤ) % (n : ℤ) = 0 := Int.zero_emod _
  simp only [tdRoundDiv, h1, h2, mul_zero]
  have h3 : ¬ ((n : ℤ) < 0) := not_lt.mpr (Int.natCast_nonneg n)
  rcases lt_or_eq_of_le (Int.natCast_nonneg n) with h4 | h4
  · simp [h3, h4]
  · simp [h3, ← h4]

theorem datetime_partitioning_self (s : ℤ) (W : ℕ) :
    datetime_partitioning s s W = List.replicate (W + 1) s := by
  simp only [datetime_partitioning, sub_self, tdRoundDiv_zero_left, zero_mul, add_zero]
  rw [List.map_const', List.length_range, List.replicate_succ']

theorem zip_replicate_succ_self {A : Type} (a : A) (n : ℕ) :
    (List.replicate (n + 1) a).zip (List.replicate n a) = List.replicate n (a, a) := by
  induction n with
  | zero => rfl
  | succ m ih =>
    rw [List.replicate_succ a (m + 1), List.replicate_succ a m, List.zip_cons_cons,
      ← List.replicate_succ a m, ih, List.replicate_succ (a, a) m]

theorem partition_windows_self (s : ℤ) (W : ℕ) :
    partition_windows s s W = List.replicate W (s, s) := by
  simp only [partition_windows, datetime_partitioning_self, List.tail_replicate]
  have h : W + 1 - 1 = W := by omega
  rw [h, zip_replicate_succ_self]

/-- C9 (amended): a sync interval with `start == end` is partitioned into
`worker_process` sub-windows, every one of them empty (`start == end`),
not a single one; nothing in the partitioning or in the crawler treats
this as an error: a partition whose every fetch yields no data reports
`is_error = False` and submits nothing (the sites stage returns `[]`
before any sink call, and the lists loop performs no submission when
every site response is empty). -/
theorem empty_interval_partitions (s : ℤ) (W : ℕ) (objects : List String)
    (site_docs : List (List ℤ)) (_hW : 0 < W)
    (hempty : ∀ d ∈ site_docs, d = []) :
    (partition_windows s s W).length = W ∧
    (∀ w ∈ partition_windows s s W, w.1 = s ∧ w.2 = s) ∧
    indexing_reported_flag objects false false false = false ∧
    (index_lists_submissions site_docs).2 = [] := by
  refine ⟨?_, ?_, ?_, ?_⟩
  · rw [partition_windows_self]; simp
  · intro w hw
    rw [partition_windows_self] at hw
    have := List.eq_of_mem_replicate hw
    simp [this]
  · have hstep : ∀ key : String,
        indexing_key_step false false false key false = false := by
      intro key
      unfold indexing_key_step indexing_lists_block indexing_items_block
      by_cases h0 : (key == "sites") = true <;> by_cases h1 : (key == "lists") = true <;>
        by_cases h2 : (key == "items") = true <;> simp [h0, h1, h2]
    induction objects with
    | nil => rfl
    | cons key rest ih =>
      simp only [indexing_reported_flag, List.foldl_cons] at ih ⊢
      rw [hstep key]
      exact ih
  · induction site_docs with
    | nil => rfl
    | cons d rest ih =>
      have hd : d = [] := hempty d (List.mem_cons_self _ _)
      simp only [index_lists_submissions, List.foldl_cons, hd, List.isEmpty_nil, if_true]
      exact ih (fun x hx => hempty x (List.mem_cons_of_mem _ hx))

/-- Witness for C9 at `start = end = 0`, three workers, the usual object
list, two (empty) site responses. -/
theorem empty_interval_partitions_witness :
    ((0 : ℕ) < 3 ∧ ∀ d ∈ ([[], []] : List (List ℤ)), d = []) ∧
    ((partition_windows 0 0 3).length = 3 ∧
     (∀ w ∈ partition_windows 0 0 3, w.1 = 0 ∧ w.2 = 0) ∧
     indexing_reported_flag ["sites", "lists", "items"] false false false = false ∧
     (index_lists_submissions ([[], []] : List (List ℤ))).2 = []) :=
  ⟨⟨by decide, by decide⟩,
   empty_interval_partitions 0 3 ["sites", "lists", "items"] [[], []]
     (by decide) (by decide)⟩

/-- C9 counterexample: with `start == end` and two workers the coordinator
creates two (empty) partitions, not a single one. -/
theorem empty_interval_not_single_partition :
    (partition_windows 0 0 2).length ≠ 1 := by
  decide

theorem count_remove_collection_loop (collections : List String) (W : ℕ) :
    (collections.foldr
        (fun c rest => ((List.range W).map (CycleEvent.launch c)
          ++ [CycleEvent.commit c]) ++ rest) []).count CycleEvent.remove = 0 := by
  induction collections with
  | nil => rfl
  | cons c rest ih =>
    simp only [List.foldr_cons, List.count_append, ih]
    have h1 : ((List.range W).map (CycleEvent.launch c)).count CycleEvent.remove = 0 := by
      rw [List.count_eq_zero]
      intro h
      rcases List.mem_map.mp h with ⟨x, _, hx⟩
      cases hx
    have h2 : ([CycleEvent.commit c]).count CycleEvent.remove = 0 := by
      rw [List.count_eq_zero]
      simp
    omega

/-- C2 (amended): in full_sync mode, *when the ids store file exists and is
non-empty*, exactly one bulk remove-all-permissions call is made per
invocation — before any partition worker launches and before any document
indexing, whatever the worker count and however many collections there
are; when the ids store file is absent or empty (first-ever run) the purge
is skipped, and incremental mode never purges.  (`remove_all_permissions`
catches every exception internally and logs it, so the call always
completes before the collection loop.) -/
theorem full_sync_single_purge (collections : List String) (W : ℕ) (b : Bool) :
    (cycle_trace "full_sync" true collections W).count CycleEvent.remove = 1 ∧
    (cycle_trace "full_sync" true collections W).head? = some CycleEvent.remove ∧
    (cycle_trace "full_sync" false collections W).count CycleEvent.remove = 0 ∧
    (cycle_trace "incremental" b collections W).count CycleEvent.remove = 0 := by
  refine ⟨?_, ?_, ?_, ?_⟩
  · simp only [cycle_trace, Bool.true_and, beq_self_eq_true, if_true, List.count_append,
      count_remove_collection_loop]
    rfl
  · simp [cycle_trace]
  · simp only [cycle_trace, Bool.false_and, Bool.false_eq_true, if_false, List.nil_append]
    exact count_remove_collection_loop collections W
  · have h : (("incremental" : String) == "full_sync") = false := by decide
    simp only [cycle_trace, h, Bool.and_false, Bool.false_eq_true, if_false, List.nil_append]
    exact count_remove_collection_loop collections W

/-- C2 counterexample: a full_sync cycle run before any ids store file
exists (first-ever run, file absent or empty) performs zero
remove-all-permissions calls, not exactly one. -/
theorem full_sync_purge_skipped_counterexample :
    (cycle_trace "full_sync" false ["collection1"] 2).count CycleEvent.remove = 0 := by
  decide

/-- C4 (code bug): the `elif self.is_error: self.is_error = False` arms of
the stage loop reset the failure flag between stages, so with the standard
object configuration a failure in the sites stage or in the lists stage is
erased and the unit reports `False` to the coordinator; only a failure in
the items stage (the last key) survives to the reported flag. -/
theorem stage_failure_flag_reset_bug :
    indexing_reported_flag ["sites", "lists", "items"] true false false = false ∧
    indexing_reported_flag ["sites", "lists", "items"] false true false = false ∧
    indexing_reported_flag ["sites", "lists", "items"] false false true = true := by
  decide

/-- C5 (amended): with a truthy include-list, every entry of the projected
schema *other than the injected `id` entry* has its source attribute in
the include-list; with only a truthy exclude-list, no entry other than the
injected `id` entry has its source attribute in the exclude-list; when
both lists are configured the exclude-list is ignored (the output equals
the include-only projection); and the output always carries an `id` entry
mapped to `"GUID"` for items and `"Id"` otherwise — even when that source
attribute is not in the include-list, which is the sole correction to the
claim. -/
theorem schema_projection_fields (adapter_schema : List (String × String))
    (f : FieldsConfig) (dn : String) :
    (optListTruthy f.include_fields = true →
      ∀ p ∈ get_schema_fields adapter_schema (some f) dn,
        p.1 ≠ "id" → p.2 ∈ f.include_fields.getD []) ∧
    (optListTruthy f.include_fields = false → optListTruthy f.exclude_fields = true →
      ∀ p ∈ get_schema_fields adapter_schema (some f) dn,
        p.1 ≠ "id" → p.2 ∉ f.exclude_fields.getD []) ∧
    (optListTruthy f.include_fields = true →
      get_schema_fields adapter_schema (some f) dn =
        get_schema_fields adapter_schema (some ⟨f.include_fields, none⟩) dn) ∧
    dictGet? (get_schema_fields adapter_schema (some f) dn) "id" =
      some (if dn == "items" then "GUID" else "Id") := by
  refine ⟨?_, ?_, ?_, ?_⟩
  · intro hinc p hp hid
    simp only [get_schema_fields, hinc, if_true] at hp
    have hmem := mem_of_mem_dictSet_ne hp hid
    have := (List.mem_filter.mp hmem).2
    simpa using this
  · intro hinc hexc p hp hid
    simp only [get_schema_fields, hinc, Bool.false_eq_true, if_false, hexc, if_true] at hp
    have hmem := mem_of_mem_dictSet_ne hp hid
    have := (List.mem_filter.mp hmem).2
    simpa using this
  · intro hinc
    simp only [get_schema_fields, hinc, if_true]
  · cases hinc : optListTruthy f.include_fields
    · cases hexc : optListTruthy f.exclude_fields
      · simp only [get_schema_fields, hinc, hexc, Bool.false_eq_true, if_false]
        exact dictGet?_set_self _ _ _
      · simp only [get_schema_fields, hinc, Bool.false_eq_true, if_false, hexc, if_true]
        exact dictGet?_set_self _ _ _
    · simp only [get_schema_fields, hinc, if_true]
      exact dictGet?_set_self _ _ _

/-- Witness for C5: the spec scenario — schema `{Title: Title,
Created: Created}`, include-list `["Title"]` (an exclude-list `["Created"]`
also present and ignored), object type `lists`. -/
theorem schema_projection_fields_witness :
    ("Title" : String) ∈ (["Title"] : List String) ∧
    get_schema_fields [("Title", "Title"), ("Created", "Created")]
        (some ⟨some ["Title"], some ["Created"]⟩) "lists" =
      get_schema_fields [("Title", "Title"), ("Created", "Created")]
        (some ⟨some ["Title"], none⟩) "lists" ∧
    dictGet? (get_schema_fields [("Title", "Title"), ("Created", "Created")]
        (some ⟨some ["Title"], some ["Created"]⟩) "lists") "id" = some "Id" := by
  refine ⟨?_, ?_, ?_⟩
  · exact (schema_projection_fields [("Title", "Title"), ("Created", "Created")]
      ⟨some ["Title"], some ["Created"]⟩ "lists").1 (by decide) ("Title", "Title")
      (by decide) (by decide)
  · exact (schema_projection_fields [("Title", "Title"), ("Created", "Created")]
      ⟨some ["Title"], some ["Created"]⟩ "lists").2.2.1 (by decide)
  · have h := (schema_projection_fields [("Title", "Title"), ("Created", "Created")]
      ⟨some ["Title"], some ["Created"]⟩ "lists").2.2.2
    simpa using h

/-- C5 counterexample: with include-list `["Title"]` the projected `lists`
schema is `{Title: Title, id: Id}`, and the source attribute `"Id"` of the
injected `id` entry is not in the include-list — so, as stated (over the
whole values set), the claim fails. -/
theorem schema_projection_id_counterexample :
    get_schema_fields [("Title", "Title"), ("Created", "Created")]
        (some ⟨some ["Title"], none⟩) "lists" = [("Title", "Title"), ("id", "Id")] ∧
    ("Id" : String) ∉ (["Title"] : List String) := by
  decide

theorem dictGet?_eq_none_of_not_mem_keys {V : Type} (d : List (String × V)) (k : String)
    (h : k ∉ dictKeys d) : dictGet? d k = none := by
  simp only [dictGet?]
  have hf : d.find? (fun p => p.1 == k) = none := by
    rw [List.find?_eq_none]
    intro x hx hc
    exact h (by
      simp only [dictKeys, List.mem_map]
      exact ⟨x, hx, by simpa using hc⟩)
  simp [hf]

/-- C6 (confirmed): one role assignment whose principal carries a truthy
`Users` dict with K member users yields exactly K grant pushes, one per
member user, each a pair of the remapped user name and the role title;
a role assignment with no enumerable member users yields exactly one push;
and a name absent from the mapping sheet passes through unchanged (the
remap `rows.get(title, title)` is the identity there). -/
theorem permission_expansion_counts (rows : List (String × String)) (r : RoleAssignment) :
    (∀ us, r.users = some us →
      (expand_role rows r).length = us.length ∧
      ∀ u ∈ us, ((dictGet? rows u).getD u, r.title) ∈ expand_role rows r) ∧
    (r.users = none → (expand_role rows r).length = 1) ∧
    (∀ u : String, u ∉ dictKeys rows → (dictGet? rows u).getD u = u) := by
  refine ⟨?_, ?_, ?_⟩
  · intro us hus
    constructor
    · simp [expand_role, hus]
    · intro u hu
      simp only [expand_role, hus]
      exact List.mem_map.mpr ⟨u, hu, rfl⟩
  · intro hus
    simp [expand_role, hus]
  · intro u hu
    rw [dictGet?_eq_none_of_not_mem_keys rows u hu]
    rfl

/-- Witness for C6: mapping sheet `{Alice ↦ alice@corp}`; a role
assignment `Admins` with member users Alice and Bob yields exactly two
pushes, Alice remapped and Bob passed through; a role assignment
`Visitors` without enumerable members yields exactly one push. -/
theorem permission_expansion_counts_witness :
    (expand_role [("Alice", "alice@corp")]
        ⟨"Admins", some ["Alice", "Bob"]⟩).length = 2 ∧
    ("alice@corp", "Admins") ∈ expand_role [("Alice", "alice@corp")]
        ⟨"Admins", some ["Alice", "Bob"]⟩ ∧
    ("Bob", "Admins") ∈ expand_role [("Alice", "alice@corp")]
        ⟨"Admins", some ["Alice", "Bob"]⟩ ∧
    (expand_role [("Alice", "alice@corp")] ⟨"Visitors", none⟩).length = 1 := by
  refine ⟨?_, ?_, ?_, ?_⟩
  · have h := ((permission_expansion_counts [("Alice", "alice@corp")]
      ⟨"Admins", some ["Alice", "Bob"]⟩).1 ["Alice", "Bob"] rfl).1
    simpa using h
  · have h := ((permission_expansion_counts [("Alice", "alice@corp")]
      ⟨"Admins", some ["Alice", "Bob"]⟩).1 ["Alice", "Bob"] rfl).2 "Alice" (by decide)
    simpa using h
  · have h := ((permission_expansion_counts [("Alice", "alice@corp")]
      ⟨"Admins", some ["Alice", "Bob"]⟩).1 ["Alice", "Bob"] rfl).2 "Bob" (by decide)
    simpa using h
  · exact (permission_expansion_counts [("Alice", "alice@corp")]
      ⟨"Visitors", none⟩).2.1 rfl

theorem dictKeys_cons {V : Type} (a : String × V) (rest : List (String × V)) :
    dictKeys (a :: rest) = a.1 :: dictKeys rest := rfl

theorem dictKeys_dictUpdate_subset {V : Type} (d delta : List (String × V)) :
    ∀ x ∈ dictKeys (dictUpdate d delta), x ∈ dictKeys d ∨ x ∈ dictKeys delta := by
  induction delta generalizing d with
  | nil => intro x hx; left; simpa [dictUpdate] using hx
  | cons a rest ih =>
    intro x hx
    have hstep : dictUpdate d (a :: rest) = dictUpdate (dictSet d a.1 a.2) rest := rfl
    rw [hstep] at hx
    rcases ih (dictSet d a.1 a.2) x hx with h1 | h1
    · rcases dictKeys_set_subset d a.1 a.2 x h1 with h2 | h2
      · left; exact h2
      · right
        rw [dictKeys_cons, h2]
        exact List.mem_cons_self _ _
    · right
      rw [dictKeys_cons]
      exact List.mem_cons_of_mem _ h1

theorem length_dictUpdate_disjoint {V : Type} (storage delta : List (String × V))
    (hnodup : (dictKeys delta).Nodup)
    (hdisj : ∀ k ∈ dictKeys delta, k ∉ dictKeys storage) :
    (dictUpdate storage delta).length = storage.length + delta.length := by
  induction delta generalizing storage with
  | nil => simp [dictUpdate]
  | cons a rest ih =>
    rw [dictKeys_cons] at hnodup hdisj
    have ha : a.1 ∉ dictKeys storage := hdisj a.1 (List.mem_cons_self _ _)
    have hnr : (dictKeys rest).Nodup := (List.nodup_cons.mp hnodup).2
    have hna : a.1 ∉ dictKeys rest := (List.nodup_cons.mp hnodup).1
    have hdisj2 : ∀ k ∈ dictKeys rest, k ∉ dictKeys (dictSet storage a.1 a.2) := by
      intro k hk hkc
      rcases dictKeys_set_subset storage a.1 a.2 k hkc with h1 | h1
      · exact hdisj k (List.mem_cons_of_mem _ hk) h1
      · exact hna (h1 ▸ hk)
    have hstep : dictUpdate storage (a :: rest) = dictUpdate (dictSet storage a.1 a.2) rest := rfl
    rw [hstep, ih (dictSet storage a.1 a.2) hnr hdisj2,
      length_dictSet_not_mem storage a.1 a.2 ha]
    simp only [List.length_cons]
    omega

theorem dictGet?_dictUpdate_not_mem {V : Type} (storage delta : List (String × V))
    (k : String) (h : k ∉ dictKeys delta) :
    dictGet? (dictUpdate storage delta) k = dictGet? storage k := by
  induction delta generalizing storage with
  | nil => simp [dictUpdate]
  | cons a rest ih =>
    rw [dictKeys_cons] at h
    have hka : k ≠ a.1 := fun hc => h (hc ▸ List.mem_cons_self _ _)
    have hkr : k ∉ dictKeys rest := fun hc => h (List.mem_cons_of_mem _ hc)
    have hstep : dictUpdate storage (a :: rest) = dictUpdate (dictSet storage a.1 a.2) rest := rfl
    rw [hstep, ih (dictSet storage a.1 a.2) hkr, dictGet?_set_ne storage a.1 k a.2 hka]

theorem length_merge_level {V : Type} (storage delta : List (String × V))
    (hnodup : (dictKeys delta).Nodup)
    (hdisj : ∀ k ∈ dictKeys delta, k ∉ dictKeys storage) :
    (merge_level storage delta).length = storage.length + delta.length := by
  by_cases hd : delta.isEmpty
  · have : delta = [] := by cases delta <;> simp_all
    simp [merge_level, this]
  · simp only [merge_level, hd, Bool.false_eq_true, if_false]
    exact length_dictUpdate_disjoint storage delta hnodup hdisj

/-- C7 (confirmed): per registry level the merge into the shared storage is
an additive union: merging two deltas with disjoint key sets into an empty
level gives a level whose size is the sum of the two sizes; a wholly empty
delta leaves the registry unchanged (each level is guarded by
`if ids.get(obj)`); and a parent key untouched by a delta keeps its
previous entry — merging never overwrites entries under unrelated parent
paths. -/
theorem identity_registry_merge_union {V : Type} (storage : IdentityRegistry V)
    (lvl1 lvl2 prev : List (String × V)) (k : String)
    (h1 : (dictKeys lvl1).Nodup) (h2 : (dictKeys lvl2).Nodup)
    (hdisj : ∀ x ∈ dictKeys lvl2, x ∉ dictKeys lvl1)
    (hk : k ∉ dictKeys lvl2) :
    (merge_level (merge_level ([] : List (String × V)) lvl1) lvl2).length
        = lvl1.length + lvl2.length ∧
    merge_registry storage ⟨[], [], []⟩ = storage ∧
    dictGet? (merge_level prev lvl2) k = dictGet? prev k := by
  refine ⟨?_, ?_, ?_⟩
  · have hlen1 : (merge_level ([] : List (String × V)) lvl1).length = lvl1.length := by
      have hs : ∀ x ∈ dictKeys lvl1, x ∉ dictKeys ([] : List (String × V)) := by
        intro x _ hc
        simp [dictKeys] at hc
      have := length_merge_level ([] : List (String × V)) lvl1 h1 hs
      simpa using this
    have hsub : ∀ x ∈ dictKeys (merge_level ([] : List (String × V)) lvl1),
        x ∈ dictKeys lvl1 := by
      intro x hx
      by_cases hl : lvl1.isEmpty
      · have : lvl1 = [] := by cases lvl1 <;> simp_all
        simp [merge_level, this, dictKeys] at hx
      · simp only [merge_level, hl, Bool.false_eq_true, if_false] at hx
        rcases dictKeys_dictUpdate_subset [] lvl1 x hx with h | h
        · simp [dictKeys] at h
        · exact h
    have := length_merge_level (merge_level ([] : List (String × V)) lvl1) lvl2 h2
      (fun x hx hc => hdisj x hx (hsub x hc))
    rw [this, hlen1]
  · cases storage
    simp [merge_registry, merge_level]
  · by_cases hd : lvl2.isEmpty
    · have : lvl2 = [] := by cases lvl2 <;> simp_all
      simp [merge_level, this]
    · simp only [merge_level, hd, Bool.false_eq_true, if_false]
      exact dictGet?_dictUpdate_not_mem prev lvl2 k hk

/-- Witness for C7: two singleton deltas under distinct parent keys merge
into a level of size two; the empty delta is a no-op on a concrete
registry; an unrelated parent key keeps its value. -/
theorem identity_registry_merge_union_witness :
    (merge_level (merge_level ([] : List (String × String)) [("siteA", "1")])
        [("siteB", "2")]).length = 1 + 1 ∧
    merge_registry (⟨[("s", "p")], [], []⟩ : IdentityRegistry String) ⟨[], [], []⟩ =
      ⟨[("s", "p")], [], []⟩ ∧
    dictGet? (merge_level [("siteA", "1")] [("siteB", "2")]) "siteA" =
      dictGet? [("siteA", "1")] "siteA" :=
  identity_registry_merge_union (⟨[("s", "p")], [], []⟩ : IdentityRegistry String)
    [("siteA", "1")] [("siteB", "2")] [("siteA", "1")] "siteA"
    (by decide) (by decide) (by decide) (by decide)

theorem dictGet?_schema_foldl {V : Type} (schema : List (String × String))
    (g : String × String → V) (doc : List (String × V)) (k : String)
    (h : k ∉ schema.map Prod.fst) :
    dictGet? (schema.foldl (fun d fr => dictSet d fr.1 (g fr)) doc) k = dictGet? doc k := by
  induction schema generalizing doc with
  | nil => simp
  | cons fr rest ih =>
    simp only [List.map_cons, List.mem_cons] at h
    push_neg at h
    simp only [List.foldl_cons]
    rw [ih (dictSet doc fr.1 (g fr)) h.2, dictGet?_set_ne doc fr.1 k (g fr) h.1]

theorem chunks_join_aux {A : Type} (n : ℕ) :
    ∀ l : List A, l.length ≤ n * 100 →
      ((List.range n).map (fun i => ((l.drop (i * 100)).take 100))).flatten = l := by
  induction n with
  | zero =>
    intro l h
    have : l = [] := List.eq_nil_of_length_eq_zero (by omega)
    simp [this]
  | succ m ih =>
    intro l h
    rw [List.range_succ_eq_map]
    simp only [List.map_cons, List.map_map, List.flatten_cons,
      zero_mul, List.drop_zero]
    have hcomp : ∀ i : ℕ, ((l.drop ((i + 1) * 100)).take 100)
        = (((l.drop 100).drop (i * 100)).take 100) := by
      intro i
      rw [List.drop_drop]
      congr 2
      omega
    have hmap : (List.range m).map ((fun i => ((l.drop (i * 100)).take 100)) ∘ Nat.succ)
        = (List.range m).map (fun i => (((l.drop 100).drop (i * 100)).take 100)) :=
      List.map_congr_left (fun i _ => hcomp i)
    rw [hmap, ih (l.drop 100) (by simp; omega)]
    exact List.take_append_drop 100 l

theorem index_document_chunks_join {A : Type} (document : List A) :
    (index_document_chunks document).flatten = document := by
  have h1 := Nat.div_add_mod (document.length + 100 - 1) 100
  have h2 : (document.length + 100 - 1) % 100 < 100 := Nat.mod_lt _ (by norm_num)
  exact chunks_join_aux ((document.length + 100 - 1) / 100) document (by omega)

/-- C8 (confirmed): in the items stage, a non-success status from the
attachment content fetch leaves the document without a `body` key at all,
and an extraction failure (TikaException) leaves `body` set to the empty
dict; in both cases the document is still projected over the schema,
appended to the staged list (one document per response item, none
dropped), and the batch slicing submits every staged document.  The
schema hypothesis reflects the adapter schemas, whose canonical field
names do not include `body`. -/
theorem attachment_failure_keeps_item (schema : List (String × String))
    (base : String) (perms : Option (List String)) (it : ItemRaw)
    (extracted : Option String) (items : List (ItemRaw × Bool × Option String))
    (hbody : "body" ∉ schema.map Prod.fst) :
    dictGet? (build_item_doc schema base perms it false extracted) "body" = none ∧
    (it.attachments = true →
      dictGet? (build_item_doc schema base perms it true none) "body"
        = some DocVal.vempty) ∧
    (index_items_documents schema base perms items).length = items.length ∧
    (∀ t ∈ items,
      build_item_doc schema base perms t.1 t.2.1 t.2.2
        ∈ index_items_documents schema base perms items) ∧
    (index_document_chunks (index_items_documents schema base perms items)).flatten
      = index_items_documents schema base perms items := by
  have hurl : ("body" : String) ≠ "url" := by decide
  have hap : ("body" : String) ≠ "_allow_permissions" := by decide
  have htype : ("body" : String) ≠ "type" := by decide
  refine ⟨?_, ?_, ?_, ?_, ?_⟩
  · simp only [build_item_doc, if_false, Bool.false_eq_true]
    rw [dictGet?_set_ne _ _ _ _ hurl]
    have hperm : ∀ d : List (String × DocVal),
        dictGet? (match perms with
          | some g => dictSet d "_allow_permissions" (DocVal.vlist g)
          | none => d) "body" = dictGet? d "body" := by
      intro d
      cases perms with
      | none => rfl
      | some g => exact dictGet?_set_ne d _ _ _ hap
    rw [hperm, dictGet?_schema_foldl schema _ _ "body" hbody]
    cases hat : it.attachments <;>
      simp [dictGet?, List.find?]
  · intro hat
    simp only [build_item_doc, hat, if_true]
    rw [dictGet?_set_ne _ _ _ _ hurl]
    have hperm : ∀ d : List (String × DocVal),
        dictGet? (match perms with
          | some g => dictSet d "_allow_permissions" (DocVal.vlist g)
          | none => d) "body" = dictGet? d "body" := by
      intro d
      cases perms with
      | none => rfl
      | some g => exact dictGet?_set_ne d _ _ _ hap
    rw [hperm, dictGet?_schema_foldl schema _ _ "body" hbody]
    exact dictGet?_set_self _ _ _
  · simp [index_items_documents]
  · intro t ht
    simp only [index_items_documents]
    exact List.mem_map.mpr ⟨t, ht, rfl⟩
  · exact index_document_chunks_join _

/-- Witness for C8: a one-field schema; an item with a truthy Attachments
flag whose attachment fetch failed yields a staged document without a
body, and the same item with a successful fetch but failed extraction
yields a body equal to the empty dict. -/
theorem attachment_failure_keeps_item_witness :
    (("body" : String) ∉ (([("Title", "Title")] : List (String × String)).map Prod.fst)) ∧
    (dictGet? (build_item_doc [("Title", "Title")] "http://x/DispForm.aspx?ID="
        none ⟨true, [("Title", "note")], "7"⟩ false none) "body" = none ∧
     dictGet? (build_item_doc [("Title", "Title")] "http://x/DispForm.aspx?ID="
        none ⟨true, [("Title", "note")], "7"⟩ true none) "body" = some DocVal.vempty ∧
     (index_items_documents [("Title", "Title")] "http://x/DispForm.aspx?ID=" none
        [(⟨true, [("Title", "note")], "7"⟩, false, none)]).length = 1) := by
  have h := attachment_failure_keeps_item [("Title", "Title")] "http://x/DispForm.aspx?ID="
    none ⟨true, [("Title", "note")], "7"⟩ none
    [(⟨true, [("Title", "note")], "7"⟩, false, none)] (by decide)
  exact ⟨by decide, h.1, h.2.1 rfl, h.2.2.1⟩

theorem index_lists_submissions_foldl {A : Type} (site_docs : List (List A)) :
    ∀ (d : List A) (subs : List (List A)),
      site_docs.foldl
        (fun acc docs =>
          if docs.isEmpty then acc
          else (acc.1 ++ docs, acc.2 ++ [acc.1 ++ docs])) (d, subs)
      = (d ++ (site_docs.filter (fun x => !x.isEmpty)).flatten,
         subs ++ (List.range (site_docs.filter (fun x => !x.isEmpty)).length).map
           (fun k => d ++ (((site_docs.filter (fun x => !x.isEmpty)).take (k + 1)).flatten))) := by
  induction site_docs with
  | nil => intro d subs; simp
  | cons x rest ih =>
    intro d subs
    by_cases hx : x.isEmpty
    · have hx' : x = [] := by cases x <;> simp_all
      simp only [List.foldl_cons, hx', List.isEmpty_nil, if_true, List.filter_cons,
        Bool.not_true, Bool.false_eq_true, if_false]
      exact ih d subs
    · have hfil : (x :: rest).filter (fun y => !y.isEmpty)
          = x :: rest.filter (fun y => !y.isEmpty) := by
        simp [List.filter_cons, hx]
      simp only [List.foldl_cons, hx, Bool.false_eq_true, if_false, hfil]
      rw [ih (d ++ x) (subs ++ [d ++ x])]
      refine Prod.ext ?_ ?_
      · simp
      · simp only [List.length_cons, List.range_succ_eq_map, List.map_cons, List.map_map]
        have h0 : d ++ ((x :: rest.filter (fun y => !y.isEmpty)).take 1).flatten = d ++ x := by
          simp
        have hsucc : (List.range (rest.filter (fun y => !y.isEmpty)).length).map
              ((fun k => d ++ (((x :: rest.filter (fun y => !y.isEmpty)).take (k + 1)).flatten))
                ∘ Nat.succ)
            = (List.range (rest.filter (fun y => !y.isEmpty)).length).map
              (fun k => (d ++ x) ++ (((rest.filter (fun y => !y.isEmpty)).take (k + 1)).flatten)) := by
          apply List.map_congr_left
          intro k _
          simp only [Function.comp_apply, List.take_succ_cons, List.flatten_cons]
          rw [List.append_assoc]
        rw [h0, hsucc]
        simp

/-- C10 (confirmed): in the `index_lists` site loop the accumulator is
initialised once and never cleared, so the argument of the k-th
`index_document` call (counting only sites whose list response was
non-empty) is the concatenation of the documents of the first k + 1
producing sites: every producing site's documents are submitted with its
own call and again with the call of every later producing site. -/
theorem lists_accumulator_resubmitted {A : Type} (site_docs : List (List A)) :
    (index_lists_submissions site_docs).2
      = (List.range (site_docs.filter (fun x => !x.isEmpty)).length).map
          (fun k => (((site_docs.filter (fun x => !x.isEmpty)).take (k + 1)).flatten)) := by
  simp only [index_lists_submissions]
  rw [index_lists_submissions_foldl site_docs [] []]
  simp
